import Mathlib

/-!
Verification of the utility layer of the pycord repository (annotation
resolution, snowflake codec, rate-limit header parsing, find/get helpers,
sync/async normalization, lazy-cached properties).

The repository copy under verification ships only its test suite
(tests/test_utils.py) and an example script; the implementation module
(discord/utils.py) and the test helper module (tests/helpers.py) are not
present.  Every definition below that embeds a missing function is therefore
modelled from the specification, as recorded in its doc comment, and checked
against the concrete expectations of the shipped tests.
-/

/- ===================== Annotation objects ===================== -/

/-- The origins a generic container annotation can carry in this model:
typing.Union or typing.Literal (typing.Optional is sugar for a Union with
NoneType). -/
inductive Origin where
  | union
  | literal
deriving Repr

/-- Modelled from the spec: the runtime annotation objects handled by the
missing discord/utils.py resolver.  An annotation is the None object, a string
(forward reference), a plain class identified by its name (the helper class
MockObject and NoneType are such classes), a literal constant (the string
arguments of typing.Literal), a generic-container object carrying an optional
dunder origin attribute and a dunder args list (the attribute values seen after
Python attribute lookup through the bases, as in the tests' test1..test6
classes), or a PEP-604 types.UnionType object such as the value of the
expression MockObject | None. -/
inductive Ann where
  | pyNone
  | str_ (s : String)
  | cls (name : String)
  | lit (s : String)
  | generic (origin : Option Origin) (args : List Ann)
  | unionType (args : List Ann)
deriving Repr

/-- A namespace (globals or locals): names bound to annotation objects. -/
abbrev NS := List (String × Ann)

/-- The forward-reference cache: strings bound to the raw value their
evaluation produced. -/
abbrev Cache := List (String × Ann)

/-- Outcomes of a failed evaluation: the TypeError the resolver raises, the
NameError a failed namespace lookup raises, and exhaustion of the recursion
fuel (Python's RecursionError). -/
inductive EvalErr where
  | typeError
  | nameError (s : String)
  | outOfFuel
deriving Repr

/-- First-match lookup in an association list, as Python dict lookup. -/
def lookupA {α : Type} (xs : List (String × α)) (s : String) : Option α :=
  match xs with
  | [] => none
  | (k, v) :: rest => if k = s then some v else lookupA rest s

/-- Modelled from the spec: name lookup as Python eval performs it, locals
first, then globals. -/
def evalName (g l : NS) (s : String) : Option Ann :=
  match lookupA l s with
  | some v => some v
  | none => lookupA g s

/-- If the string ends in the five-characters-and-separator suffix
" | None", return what precedes it.  ("enoN | " is that suffix reversed.) -/
def stripNoneSuffix (s : String) : Option String :=
  if s.data.reverse.take 7 = "enoN | ".data then
    some (String.mk ((s.data.reverse.drop 7).reverse))
  else none

/-- Modelled from the spec: Python eval of a string annotation against the
provided namespaces.  A bound name evaluates to its value; on Python 3.10+
the expression form "T | None" evaluates to the types.UnionType of the value
of T and NoneType. -/
def evalStr (g l : NS) (s : String) : Option Ann :=
  match evalName g l s with
  | some v => some v
  | none =>
    match stripNoneSuffix s with
    | some t =>
      match evalName g l t with
      | some v => some (Ann.unionType [v, Ann.cls "NoneType"])
      | none => none
    | none => none

/-- The model fixes the interpreter at Python 3.10 or newer, matching the
PY_310 flag the tests import. -/
def PY_310 : Bool := true

/-- Is this annotation object the NoneType class (the null alternative of a
Union)? -/
def isNoneCls : Ann → Bool
  | .cls n => n == "NoneType"
  | _ => false

/-- Is this annotation object a value Literal accepts as an argument
(a literal constant or None)? -/
def isLitVal : Ann → Bool
  | .lit _ => true
  | .pyNone => true
  | _ => false

mutual

/-- Modelled from the spec: the missing discord/utils.py evaluator.  Given a
possibly-string annotation, globals, locals, and a cache, resolve it to a
concrete type: strings are evaluated against the provided namespaces, and
forward references are cached by identity (keyed by the string) so a second
occurrence reuses the cached value instead of evaluating again; generic
containers (Optional/Union/Literal) are unwrapped recursively — a Union is
unwrapped by evaluating its alternatives and, in the single-optional context
this resolver serves, reducing a single non-null alternative (alone or paired
with the null alternative) to that alternative; it fails with a type error
when a Union includes more than one non-null alternative paired with a null
alternative, and (as the tests' test6 shape exercises) when a Literal
argument is not a literal constant; a PEP-604 union object is converted to a
Union and unwrapped the same way; any object carrying args without an origin
is returned unchanged.  The leading fuel argument bounds the recursion depth
and stands for Python's recursion limit; every claim below is established
with fuel to spare. -/
def evaluate_annotation (fuel : Nat) (tp : Ann) (globalns localns : NS)
    (cache : Cache) : Except EvalErr (Ann × Cache) :=
  match fuel with
  | 0 => .error .outOfFuel
  | f + 1 =>
    match tp with
    | .pyNone => .ok (.pyNone, cache)
    | .lit s => .ok (.lit s, cache)
    | .cls n => .ok (.cls n, cache)
    | .str_ s =>
      match lookupA cache s with
      | some v => evaluate_annotation f v globalns localns cache
      | none =>
        match evalStr globalns localns s with
        | some v => evaluate_annotation f v globalns localns ((s, v) :: cache)
        | none => .error (.nameError s)
    | .unionType args =>
      if PY_310 then
        evaluate_annotation f (.generic (some .union) args) globalns localns cache
      else .ok (.unionType args, cache)
    | .generic none args => .ok (.generic none args, cache)
    | .generic (some .union) args =>
      match evalListAnn f args globalns localns cache with
      | .error e => .error e
      | .ok (ev, c2) =>
        let nn := ev.filter (fun a => !(isNoneCls a))
        if ev.any isNoneCls && decide (2 ≤ nn.length) then .error .typeError
        else
          match nn with
          | [t] => .ok (t, c2)
          | [] => .ok (.cls "NoneType", c2)
          | _ => .ok (.generic (some .union) ev, c2)
    | .generic (some .literal) args =>
      if args.all isLitVal then .ok (.generic (some .literal) args, cache)
      else .error .typeError

/-- Evaluate the arguments of a generic container left to right, threading
the forward-reference cache. -/
def evalListAnn (fuel : Nat) (args : List Ann) (globalns localns : NS)
    (cache : Cache) : Except EvalErr (List Ann × Cache) :=
  match fuel with
  | 0 => .error .outOfFuel
  | f + 1 =>
    match args with
    | [] => .ok ([], cache)
    | a :: rest =>
      match evaluate_annotation f a globalns localns cache with
      | .error e => .error e
      | .ok (ea, c2) =>
        match evalListAnn f rest globalns localns c2 with
        | .error e => .error e
        | .ok (eas, c3) => .ok (ea :: eas, c3)

end

/-- Modelled from the spec: the missing discord/utils.py entry point.  It
replaces the None annotation by the NoneType class, defaults an absent cache
to an empty one, and hands over to the evaluator. -/
def resolve_annotation (fuel : Nat) (a : Ann) (globalns localns : NS)
    (cache : Option Cache) : Except EvalErr (Ann × Cache) :=
  let tp := match a with | .pyNone => Ann.cls "NoneType" | x => x
  evaluate_annotation fuel tp globalns localns (cache.getD [])

/-- Modelled from the spec: Python issubclass restricted to the model's named
classes.  The model carries no inheritance between the distinct plain classes
the tests use, so a named class's only subclass is itself. -/
def issubclass : Ann → Ann → Bool
  | .cls a, .cls b => a == b
  | _, _ => false

/-- tests/test_utils.py line 239: a class with dunder args (MockObject,) and
no origin. -/
def test1 : Ann := .generic none [.cls "MockObject"]

/-- tests/test_utils.py line 240: test2 derives test1 and adds origin Union;
attribute lookup thus sees origin Union and args (MockObject,). -/
def test2 : Ann := .generic (some .union) [.cls "MockObject"]

/-- tests/test_utils.py line 241: test3 derives test2 and overrides args with
[NoneType, MockObject]; lookup sees origin Union and those args. -/
def test3 : Ann := .generic (some .union) [.cls "NoneType", .cls "MockObject"]

/-- tests/test_utils.py line 242: origin Literal with args ("a", "b"). -/
def test4 : Ann := .generic (some .literal) [.lit "a", .lit "b"]

/-- tests/test_utils.py line 243: test5 derives test4 and adds nothing, so
attribute lookup sees the same origin Literal and args ("a", "b"). -/
def test5 : Ann := .generic (some .literal) [.lit "a", .lit "b"]

/-- tests/test_utils.py line 244: test6 derives test5 and overrides args with
(MockObject,); lookup sees origin Literal and a non-literal argument. -/
def test6 : Ann := .generic (some .literal) [.cls "MockObject"]

/- ===================== Snowflake codec ===================== -/

/-- A UTC datetime at the granularity the codec observes: whole seconds since
the Unix epoch plus a microsecond part. -/
structure PyDatetime where
  sec : Nat
  usec : Nat
deriving DecidableEq, Repr

/-- The platform epoch in milliseconds since the Unix epoch (the first second
of 2015), the reference point of snowflake timestamps. -/
def DISCORD_EPOCH : Nat := 1420070400000

/-- Milliseconds since the Unix epoch carried by a datetime, truncating below
the millisecond as int conversion does. -/
def dtMillis (d : PyDatetime) : Nat := d.sec * 1000 + d.usec / 1000

/-- Modelled from the spec: the missing discord/utils.py time_snowflake.  A
snowflake is a 64-bit timestamped identifier whose bits from 22 up hold the
milliseconds elapsed since the platform epoch; this conversion leaves the low
22 platform-specific bits zero. -/
def time_snowflake (d : PyDatetime) : Nat :=
  (dtMillis d - DISCORD_EPOCH) * 2 ^ 22

/-- Modelled from the spec: the missing discord/utils.py generate_snowflake,
which stamps the same timestamp field and fills the low 22 platform-specific
bits with generator data, modelled as an arbitrary value reduced below 2^22. -/
def generate_snowflake (d : PyDatetime) (low : Nat) : Nat :=
  (dtMillis d - DISCORD_EPOCH) * 2 ^ 22 + low % 2 ^ 22

/-- Modelled from the spec: the missing discord/utils.py snowflake_time,
recovering the UTC datetime from the timestamp field of a snowflake. -/
def snowflake_time (id : Nat) : PyDatetime :=
  let ms := id / 2 ^ 22 + DISCORD_EPOCH
  { sec := ms / 1000, usec := ms % 1000 * 1000 }

/- ===================== find / get ===================== -/

/-- Modelled from the spec: the missing discord/utils.py find, the generic
query helper returning the first element of the iterable satisfying the
predicate, and None when none does. -/
def find {α : Type} (p : α → Bool) : List α → Option α
  | [] => none
  | x :: xs => if p x then some x else find p xs

/-- An attribute-bearing Python value as the get helper observes it: a
primitive integer or an object with named attributes (the tests' Obj carries
an integer value attribute and an object deep attribute). -/
inductive PyVal where
  | vint (n : Int)
  | vobj (attrs : List (String × PyVal))

/-- Modelled from the spec: the equality comparison get applies to attribute
values; primitive values compare by value, and the model compares distinct
objects unequal. -/
def pyEq : PyVal → PyVal → Bool
  | .vint a, .vint b => a == b
  | _, _ => false

/-- Split an attribute path on the double-underscore separator, as the get
helper turns deep__value into the nested accesses deep then value. -/
def splitUnd : List Char → List (List Char)
  | [] => [[]]
  | '_' :: '_' :: rest => [] :: splitUnd rest
  | c :: rest =>
    match splitUnd rest with
    | [] => [[c]]
    | p :: ps => (c :: p) :: ps

/-- Follow a chain of attribute accesses through nested objects. -/
def getPath (v : PyVal) : List (List Char) → Option PyVal
  | [] => some v
  | s :: rest =>
    match v with
    | .vint _ => none
    | .vobj as =>
      match lookupA as (String.mk s) with
      | some w => getPath w rest
      | none => none

/-- Does the element carry every queried attribute (nested paths spelled with
double underscores) with a value equal to the one asked for? -/
def matchesAttrs (attrs : List (String × PyVal)) (x : PyVal) : Bool :=
  attrs.all fun kv =>
    match getPath x (splitUnd kv.1.data) with
    | some w => pyEq w kv.2
    | none => false

/-- Modelled from the spec: the missing discord/utils.py get, the generic
query helper returning the first element whose named attributes all equal the
given values, and None when no element matches. -/
def get (xs : List PyVal) (attrs : List (String × PyVal)) : Option PyVal :=
  find (matchesAttrs attrs) xs

/- ===================== maybe_coroutine ===================== -/

/-- An awaitable in the single-threaded cooperative model: awaiting it yields
the stored value. -/
structure Coro (β : Type) where
  run : β

/-- Awaiting an awaitable. -/
def awaited {β : Type} (c : Coro β) : β := c.run

/-- A Python callable as maybe_coroutine distinguishes them: a plain function
or a coroutine function. -/
inductive PyCallable (α β : Type) where
  | sync (f : α → β)
  | coro (f : α → Coro β)

/-- Modelled from the spec: the missing discord/utils.py maybe_coroutine,
normalizing sync and async callables to one awaitable interface: a plain
function's result is wrapped into an immediately ready awaitable, while a
coroutine function's coroutine is passed through to be awaited. -/
def maybe_coroutine {α β : Type} (f : PyCallable α β) (v : α) : Coro β :=
  match f with
  | .sync g => ⟨g v⟩
  | .coro g => g v

/- ===================== cached property ===================== -/

/-- An instance holding mutable state of type σ together with the slot the
cached property fills on first access. -/
structure CPInstance (σ α : Type) where
  state : σ
  cached : Option α

/-- The descriptor object of the lazy-cached property: it wraps the
underlying getter, whose call may update the instance state (the tests'
getter increments a counter) and returns the computed value. -/
structure CachedProp (σ α : Type) where
  func : σ → σ × α

/-- What descriptor access yields: the descriptor itself when accessed on the
class, or an updated instance paired with the attribute value. -/
inductive CPGetResult (σ α : Type) where
  | descr (d : CachedProp σ α)
  | value (t : CPInstance σ α) (v : α)

/-- Modelled from the spec: one attribute access through the lazy-cached
property on an instance.  A filled cache slot answers without invoking the
getter; an empty one invokes the getter once, stores its result, and answers
with it. -/
def cached_get {σ α : Type} (f : σ → σ × α) (t : CPInstance σ α) :
    CPInstance σ α × α :=
  match t.cached with
  | some v => (t, v)
  | none =>
    let r := f t.state
    ({ state := r.1, cached := some r.2 }, r.2)

/-- Modelled from the spec: the descriptor protocol entry of the missing
cached-property wrapper type; accessed on the class (instance None) it
returns the descriptor itself, on an instance it performs the cached access. -/
def cp_get {σ α : Type} (d : CachedProp σ α) (inst : Option (CPInstance σ α)) :
    CPGetResult σ α :=
  match inst with
  | none => .descr d
  | some t =>
    let r := cached_get d.func t
    .value r.1 r.2

/- ===================== rate-limit header parsing ===================== -/

/-- A response as the rate-limit parser observes it: the seconds-to-reset
header X-Ratelimit-Reset-After and the absolute-timestamp header
X-Ratelimit-Reset, at the whole-second granularity of the claim (the float
sub-second part is abstracted away). -/
structure RatelimitRequest where
  resetAfter : Nat
  reset : Nat
deriving DecidableEq, Repr

/-- Modelled from the spec: the missing discord/utils.py rate-limit header
parser.  With use_clock the duration is computed from the absolute reset
timestamp and the current clock; without it the reset-after header is read
directly. -/
def parse_ratelimit_header (now : Nat) (r : RatelimitRequest)
    (use_clock : Bool) : Nat :=
  if use_clock then r.reset - now else r.resetAfter

/-- Sanity check against tests/test_utils.py: the test3 shape (Union origin,
args NoneType and MockObject) evaluates to the MockObject class. -/
theorem eval_test3_unwraps :
    evaluate_annotation 5 test3 [] [] [] = .ok (.cls "MockObject", []) := rfl

/-- Sanity check against tests/test_utils.py: the test6 shape raises a
TypeError. -/
theorem eval_test6_raises :
    evaluate_annotation 5 test6 [] [] [] = .error .typeError := rfl

/-- Sanity check against tests/test_utils.py: the PEP-604 string form
evaluates through the namespaces, populates the cache, and unwraps to the
MockObject class. -/
theorem eval_pep604_string :
    evaluate_annotation 9 (.str_ "MockObject | None")
      [("MockObject", .cls "MockObject")] [] [] =
    .ok (.cls "MockObject",
      [("MockObject | None", .unionType [.cls "MockObject", .cls "NoneType"])]) := rfl

/- ===================== helper lemmas ===================== -/

/-- Annotations the evaluator returns unchanged in one step without touching
the cache. -/
def simpleA : Ann → Bool
  | .cls _ => true
  | .lit _ => true
  | .pyNone => true
  | .generic none _ => true
  | _ => false

theorem eval_simple (a : Ann) (g l : NS) (c : Cache) (fuel : Nat)
    (ha : simpleA a = true) (hf : 0 < fuel) :
    evaluate_annotation fuel a g l c = .ok (a, c) := by
  obtain ⟨f, rfl⟩ : ∃ f, fuel = f + 1 := ⟨fuel - 1, by omega⟩
  cases a with
  | cls n => rfl
  | lit s => rfl
  | pyNone => rfl
  | str_ s => simp [simpleA] at ha
  | unionType as => simp [simpleA] at ha
  | generic o as =>
    cases o with
    | none => rfl
    | some o => simp [simpleA] at ha

theorem evalList_simple (as : List Ann) (g l : NS) (c : Cache) (fuel : Nat)
    (ha : ∀ a ∈ as, simpleA a = true) (hf : as.length < fuel) :
    evalListAnn fuel as g l c = .ok (as, c) := by
  induction as generalizing fuel c with
  | nil =>
    obtain ⟨f, rfl⟩ : ∃ f, fuel = f + 1 := ⟨fuel - 1, by omega⟩
    rfl
  | cons a rest ih =>
    obtain ⟨f, rfl⟩ : ∃ f, fuel = f + 1 := ⟨fuel - 1, by omega⟩
    simp only [List.length_cons] at hf
    have hfa : 0 < f := by omega
    have h1 : evaluate_annotation f a g l c = .ok (a, c) :=
      eval_simple a g l c f (ha a (by simp)) hfa
    have h2 : evalListAnn f rest g l c = .ok (rest, c) :=
      ih c f (fun x hx => ha x (by simp [hx])) (by omega)
    show evalListAnn (f + 1) (a :: rest) g l c = .ok (a :: rest, c)
    simp [evalListAnn, h1, h2]

/- ===================== C1 ===================== -/

/-- C1: a Union-origin annotation whose arguments include the NoneType class
together with at least two non-null alternatives makes the evaluator raise a
TypeError for any globals, locals, and cache (first conjunct); and on the
tests' test6 shape — the Literal-origin class whose argument is the MockObject
class — the evaluator likewise raises a TypeError instead of returning a
resolved type (second conjunct). -/
theorem c1_union_null_many_nonnull_typeError :
    (∀ (args : List Ann) (g l : NS) (c : Cache) (fuel : Nat),
      (∀ a ∈ args, ∃ n, a = Ann.cls n) →
      Ann.cls "NoneType" ∈ args →
      2 ≤ (args.filter (fun a => !(isNoneCls a))).length →
      args.length + 1 < fuel →
      evaluate_annotation fuel (.generic (some .union) args) g l c =
        .error .typeError) ∧
    (∀ (g l : NS) (c : Cache) (fuel : Nat), 0 < fuel →
      evaluate_annotation fuel test6 g l c = .error .typeError) := by
  constructor
  · intro args g l c fuel hcls hmem hlen hfuel
    obtain ⟨f, rfl⟩ : ∃ f, fuel = f + 1 := ⟨fuel - 1, by omega⟩
    have hsimple : ∀ a ∈ args, simpleA a = true := by
      intro a ha
      obtain ⟨n, rfl⟩ := hcls a ha
      rfl
    have hlist : evalListAnn f args g l c = .ok (args, c) :=
      evalList_simple args g l c f hsimple (by omega)
    have hany : args.any isNoneCls = true := by
      simp only [List.any_eq_true]
      exact ⟨Ann.cls "NoneType", hmem, rfl⟩
    simp [ evaluate_annotation, hlist, hany, hlen]
  · intro g l c fuel hf
    obtain ⟨f, rfl⟩ : ∃ f, fuel = f + 1 := ⟨fuel - 1, by omega⟩
    rfl

theorem c1_witness :
    evaluate_annotation 6
      (.generic (some .union) [.cls "A", .cls "B", .cls "NoneType"]) [] [] [] =
      .error .typeError :=
  c1_union_null_many_nonnull_typeError.1
    [.cls "A", .cls "B", .cls "NoneType"] [] [] [] 6
    (by
      intro a ha
      simp only [List.mem_cons, List.not_mem_nil, or_false] at ha
      rcases ha with rfl | rfl | rfl
      · exact ⟨"A", rfl⟩
      · exact ⟨"B", rfl⟩
      · exact ⟨"NoneType", rfl⟩)
    (by simp)
    (by decide)
    (by decide)

/- ===================== C10 ===================== -/

/-- C10: the None annotation is handled asymmetrically: resolve_annotation on
the None annotation with cache None returns the NoneType class, a subclass of
NoneType, while evaluate_annotation on the None annotation returns the None
object itself, which is not the NoneType class. -/
theorem c10_none_asymmetry :
    (∀ (g l : NS) (fuel : Nat), 0 < fuel →
      resolve_annotation fuel .pyNone g l none = .ok (.cls "NoneType", []) ∧
      issubclass (.cls "NoneType") (.cls "NoneType") = true) ∧
    (∀ (g l : NS) (c : Cache) (fuel : Nat), 0 < fuel →
      evaluate_annotation fuel .pyNone g l c = .ok (.pyNone, c)) ∧
    Ann.pyNone ≠ Ann.cls "NoneType" := by
  refine ⟨fun g l fuel hf => ⟨?_, rfl⟩, fun g l c fuel hf => ?_,
    fun h => Ann.noConfusion h⟩
  · obtain ⟨f, rfl⟩ : ∃ f, fuel = f + 1 := ⟨fuel - 1, by omega⟩
    rfl
  · obtain ⟨f, rfl⟩ : ∃ f, fuel = f + 1 := ⟨fuel - 1, by omega⟩
    rfl

theorem c10_witness :
    resolve_annotation 1 .pyNone [] [] none = .ok (.cls "NoneType", []) ∧
    issubclass (.cls "NoneType") (.cls "NoneType") = true :=
  c10_none_asymmetry.1 [] [] 1 (by decide)

/- ===================== C2 ===================== -/

/-- C2: for a class bound to its own name in the provided namespaces,
resolve_annotation called with the string name (and cache None) evaluates the
string against the namespaces and returns that class — a subclass of it —
and called with the class itself it likewise returns that class. -/
theorem c2_resolve_name_and_class (name : String) (g l : NS) (fuel : Nat)
    (hbind : evalName g l name = some (.cls name)) (hf : 2 ≤ fuel) :
    resolve_annotation fuel (.str_ name) g l none =
      .ok (.cls name, [(name, .cls name)]) ∧
    resolve_annotation fuel (.cls name) g l none = .ok (.cls name, []) ∧
    issubclass (.cls name) (.cls name) = true := by
  obtain ⟨f, rfl⟩ : ∃ f, fuel = f + 1 := ⟨fuel - 1, by omega⟩
  refine ⟨?_, rfl, by simp [issubclass]⟩
  have h2 : evalStr g l name = some (.cls name) := by
    simp [evalStr, hbind]
  have h3 : evaluate_annotation f (.cls name) g l [(name, .cls name)] =
      .ok (.cls name, [(name, .cls name)]) :=
    eval_simple _ _ _ _ _ rfl (by omega)
  show evaluate_annotation (f + 1) (.str_ name) g l [] =
    .ok (.cls name, [(name, .cls name)])
  simp [ evaluate_annotation, h2, h3, lookupA]

theorem c2_witness :
    resolve_annotation 2 (.str_ "T") [("T", .cls "T")] [] none =
      .ok (.cls "T", [("T", .cls "T")]) ∧
    resolve_annotation 2 (.cls "T") [("T", .cls "T")] [] none =
      .ok (.cls "T", []) ∧
    issubclass (.cls "T") (.cls "T") = true :=
  c2_resolve_name_and_class "T" [("T", .cls "T")] [] 2 rfl (by omega)

/- ===================== C7 ===================== -/

/-- C7: maybe_coroutine normalizes sync and async callables to one awaitable
interface: awaiting its result returns the plain function's value,
respectively the awaited value of the coroutine function's coroutine, and
for the identity function both cases return the argument itself. -/
theorem c7_maybe_coroutine_normalizes {α β : Type} (f : α → β)
    (gc : α → Coro β) (v : α) :
    awaited (maybe_coroutine (.sync f) v) = f v ∧
    awaited (maybe_coroutine (.coro gc) v) = awaited (gc v) ∧
    awaited (maybe_coroutine (.sync (fun x : α => x)) v) = v ∧
    awaited (maybe_coroutine (.coro (fun x : α => ⟨x⟩)) v) = v :=
  ⟨rfl, rfl, rfl, rfl⟩

/- ===================== C9 ===================== -/

/-- C9: for a response whose reset-after header carries s seconds and whose
reset header carries the current time plus s, the rate-limit parser returns
exactly s in both modes: with use_clock (differencing the reset timestamp
against the clock) and without (reading the reset-after header directly). -/
theorem c9_parse_ratelimit_both_modes (now s : Nat) :
    parse_ratelimit_header now ⟨s, now + s⟩ true = s ∧
    parse_ratelimit_header now ⟨s, now + s⟩ false = s := by
  constructor
  · show (now + s) - now = s
    omega
  · rfl

/- ===================== C5 ===================== -/

/-- C5: the snowflake timestamp codec round-trips on UTC datetimes with zero
microseconds in the epoch-to-2^42-milliseconds range: snowflake_time undoes
time_snowflake, and likewise undoes generate_snowflake for any low-bits
value; both snowflakes fit in 64 bits. -/
theorem c5_snowflake_roundtrip (d : PyDatetime) (low : Nat)
    (hu : d.usec = 0) (hlo : DISCORD_EPOCH ≤ dtMillis d)
    (hhi : dtMillis d < DISCORD_EPOCH + 2 ^ 42) :
    snowflake_time (time_snowflake d) = d ∧
    snowflake_time (generate_snowflake d low) = d ∧
    time_snowflake d < 2 ^ 64 ∧
    generate_snowflake d low < 2 ^ 64 := by
  obtain ⟨s, u⟩ := d
  have hu' : u = 0 := hu
  subst hu'
  have hms : dtMillis ⟨s, 0⟩ = s * 1000 := by simp [dtMillis]
  rw [hms] at hlo hhi
  have hE : DISCORD_EPOCH = 1420070400000 := rfl
  have e22 : (2:Nat) ^ 22 = 4194304 := by norm_num
  have e42 : (2:Nat) ^ 42 = 4398046511104 := by norm_num
  have e64 : (2:Nat) ^ 64 = 18446744073709551616 := by norm_num
  have h22 : (0:Nat) < 2 ^ 22 := by positivity
  have hmod : low % 2 ^ 22 < 2 ^ 22 := Nat.mod_lt _ h22
  have htime : time_snowflake ⟨s, 0⟩ = (s * 1000 - DISCORD_EPOCH) * 2 ^ 22 := by
    show (dtMillis ⟨s, 0⟩ - DISCORD_EPOCH) * 2 ^ 22 =
      (s * 1000 - DISCORD_EPOCH) * 2 ^ 22
    rw [hms]
  have hgen : generate_snowflake ⟨s, 0⟩ low =
      (s * 1000 - DISCORD_EPOCH) * 2 ^ 22 + low % 2 ^ 22 := by
    show (dtMillis ⟨s, 0⟩ - DISCORD_EPOCH) * 2 ^ 22 + low % 2 ^ 22 =
      (s * 1000 - DISCORD_EPOCH) * 2 ^ 22 + low % 2 ^ 22
    rw [hms]
  have hback : s * 1000 - DISCORD_EPOCH + DISCORD_EPOCH = s * 1000 := by omega
  have key : ∀ X : Nat, X / 2 ^ 22 = s * 1000 - DISCORD_EPOCH →
      snowflake_time X = ⟨s, 0⟩ := by
    intro X hX
    show (⟨(X / 2 ^ 22 + DISCORD_EPOCH) / 1000,
           (X / 2 ^ 22 + DISCORD_EPOCH) % 1000 * 1000⟩ : PyDatetime) = ⟨s, 0⟩
    rw [hX, hback]
    simp only [PyDatetime.mk.injEq]
    omega
  have hdiv1 : (s * 1000 - DISCORD_EPOCH) * 2 ^ 22 / 2 ^ 22 =
      s * 1000 - DISCORD_EPOCH := Nat.mul_div_cancel _ h22
  have hdiv2 : ((s * 1000 - DISCORD_EPOCH) * 2 ^ 22 + low % 2 ^ 22) / 2 ^ 22 =
      s * 1000 - DISCORD_EPOCH := by
    rw [e22] at hmod ⊢
    omega
  refine ⟨?_, ?_, ?_, ?_⟩
  · rw [htime]
    exact key _ hdiv1
  · rw [hgen]
    exact key _ hdiv2
  · rw [htime, e22, e64]
    rw [e42] at hhi
    rw [hE] at hlo hhi ⊢
    omega
  · rw [hgen, e22, e64]
    rw [e42] at hhi
    rw [e22] at hmod
    rw [hE] at hlo hhi ⊢
    omega

theorem c5_witness :
    snowflake_time (time_snowflake ⟨1420070401, 0⟩) = ⟨1420070401, 0⟩ ∧
    snowflake_time (generate_snowflake ⟨1420070401, 0⟩ 5) = ⟨1420070401, 0⟩ ∧
    time_snowflake ⟨1420070401, 0⟩ < 2 ^ 64 ∧
    generate_snowflake ⟨1420070401, 0⟩ 5 < 2 ^ 64 :=
  c5_snowflake_roundtrip ⟨1420070401, 0⟩ 5 rfl (by decide) (by decide)

/- ===================== C6 ===================== -/

theorem find_none_iff {α : Type} (p : α → Bool) (xs : List α) :
    find p xs = none ↔ ∀ x ∈ xs, p x = false := by
  induction xs with
  | nil => simp [find]
  | cons a rest ih =>
    cases hpa : p a with
    | false => simp [find, hpa, ih]
    | true => simp [find, hpa]

theorem find_some_first {α : Type} (p : α → Bool) (xs : List α) (x : α) :
    find p xs = some x →
    p x = true ∧ ∃ l₁ l₂, xs = l₁ ++ x :: l₂ ∧ ∀ y ∈ l₁, p y = false := by
  induction xs with
  | nil => intro h; simp [find] at h
  | cons a rest ih =>
    intro h
    cases hpa : p a with
    | true =>
      simp only [find, hpa, if_true] at h
      injection h with h
      subst h
      exact ⟨hpa, [], rest, rfl, by simp⟩
    | false =>
      simp only [find, hpa, Bool.false_eq_true, if_false] at h
      obtain ⟨hx, l₁, l₂, rfl, hl⟩ := ih h
      refine ⟨hx, a :: l₁, l₂, rfl, ?_⟩
      intro y hy
      rcases List.mem_cons.mp hy with rfl | hy
      · exact hpa
      · exact hl y hy

/-- C6: find returns the first element of the list satisfying the predicate
and None when none does; get returns the first element whose queried
attributes (nested paths spelled with double underscores) all equal the given
values, and None when no element matches — in particular a query for a value
no element carries yields None. -/
theorem c6_find_get_first_or_none {α : Type} (p : α → Bool) (xs : List α)
    (x : α) (ys : List PyVal) (attrs : List (String × PyVal)) (y : PyVal) :
    (find p xs = none ↔ ∀ z ∈ xs, p z = false) ∧
    (find p xs = some x →
      p x = true ∧ ∃ l₁ l₂, xs = l₁ ++ x :: l₂ ∧ ∀ z ∈ l₁, p z = false) ∧
    (get ys attrs = none ↔ ∀ z ∈ ys, matchesAttrs attrs z = false) ∧
    (get ys attrs = some y →
      matchesAttrs attrs y = true ∧
      ∃ l₁ l₂, ys = l₁ ++ y :: l₂ ∧ ∀ z ∈ l₁, matchesAttrs attrs z = false) :=
  ⟨find_none_iff p xs, find_some_first p xs x,
   find_none_iff _ ys, find_some_first _ ys y⟩

/-- The tests' Obj shape: an integer value attribute and a deep attribute
holding an object with the same value attribute (one unrolling of the tests'
self-reference, enough for the deep__value query path). -/
def mkObj (i : Int) : PyVal :=
  .vobj [("value", .vint i), ("deep", .vobj [("value", .vint i)])]

theorem c6_witness :
    get [mkObj 0, mkObj 1] [("deep__value", .vint 10)] = none :=
  (c6_find_get_first_or_none (fun n : Nat => n == 2) [] 0 [mkObj 0, mkObj 1]
      [("deep__value", .vint 10)] (mkObj 0)).2.2.1.mpr
    (by
      intro z hz
      rcases List.mem_cons.mp hz with rfl | hz
      · rfl
      · rcases List.mem_cons.mp hz with rfl | hz
        · rfl
        · cases hz)

/- ===================== C8 ===================== -/

/-- C8: a cached property is lazy and computed exactly once per instance: on
an empty cache slot the access returns the getter's value, applies the
getter's state effect, and fills the slot; a second access on the resulting
instance returns the same value and instance without invoking the getter
again; accessing the descriptor on the class (instance None) returns the
descriptor itself. -/
theorem c8_cached_property_once :
    (∀ {σ α : Type} (f : σ → σ × α) (t : CPInstance σ α), t.cached = none →
      (cached_get f t).2 = (f t.state).2 ∧
      (cached_get f t).1.state = (f t.state).1 ∧
      (cached_get f t).1.cached = some (f t.state).2 ∧
      cached_get f (cached_get f t).1 =
        ((cached_get f t).1, (cached_get f t).2)) ∧
    (∀ {σ α : Type} (d : CachedProp σ α), cp_get d none = .descr d) := by
  constructor
  · intro σ α f t h
    obtain ⟨st, cc⟩ := t
    have hc : cc = none := h
    subst hc
    exact ⟨rfl, rfl, rfl, rfl⟩
  · intro σ α d
    rfl

theorem c8_witness :
    cached_get (fun x : Nat => (x + 1, x + 1))
        ((cached_get (fun x : Nat => (x + 1, x + 1)) ⟨0, none⟩).1) =
      ((cached_get (fun x : Nat => (x + 1, x + 1)) ⟨0, none⟩).1,
       (cached_get (fun x : Nat => (x + 1, x + 1)) ⟨0, none⟩).2) :=
  (c8_cached_property_once.1 (fun x : Nat => (x + 1, x + 1)) ⟨0, none⟩ rfl).2.2.2

/- ===================== C3 ===================== -/

theorem strip_append (name : String) :
    stripNoneSuffix (name ++ " | None") = some name := by
  show (if (name ++ " | None").data.reverse.take 7 = ("enoN | ").data then
      some (String.mk (((name ++ " | None").data.reverse.drop 7).reverse))
    else none) = some name
  have hdata : (name ++ " | None").data.reverse =
      ("enoN | ").data ++ name.data.reverse := by
    show (name.data ++ (" | None").data).reverse = _
    rw [List.reverse_append]
    rfl
  rw [hdata]
  have hlen : (("enoN | ").data).length = 7 := rfl
  rw [← hlen, List.take_left, List.drop_left, if_pos rfl, List.reverse_reverse]

theorem union_ev_R {T : String} {a : Ann} {g l : NS} {m : Nat} (hm : 1 ≤ m)
    (hT : (T == "NoneType") = false)
    (IH : ∀ (c : Cache) (fuel : Nat), m ≤ fuel →
      evaluate_annotation fuel a g l c = .ok (.cls T, c)) :
    ∀ (c : Cache) (fuel : Nat), m + 3 ≤ fuel →
      evaluate_annotation fuel (.generic (some .union) [a, .cls "NoneType"])
        g l c = .ok (.cls T, c) := by
  intro c fuel hf
  obtain ⟨f, rfl⟩ : ∃ f, fuel = f + 1 := ⟨fuel - 1, by omega⟩
  obtain ⟨f1, rfl⟩ : ∃ f1, f = f1 + 1 := ⟨f - 1, by omega⟩
  have ha : evaluate_annotation f1 a g l c = .ok (.cls T, c) := IH c f1 (by omega)
  have htail : evalListAnn f1 [.cls "NoneType"] g l c =
      .ok ([.cls "NoneType"], c) :=
    evalList_simple _ g l c f1
      (by intro x hx; simp only [List.mem_singleton] at hx; subst hx; rfl)
      (by simp only [List.length_singleton]; omega)
  have hlist : evalListAnn (f1 + 1) [a, .cls "NoneType"] g l c =
      .ok ([.cls T, .cls "NoneType"], c) := by
    simp [evalListAnn, ha, htail]
  simp [ evaluate_annotation, hlist, isNoneCls, hT]

theorem union_ev_L {T : String} {a : Ann} {g l : NS} {m : Nat} (hm : 1 ≤ m)
    (hT : (T == "NoneType") = false)
    (IH : ∀ (c : Cache) (fuel : Nat), m ≤ fuel →
      evaluate_annotation fuel a g l c = .ok (.cls T, c)) :
    ∀ (c : Cache) (fuel : Nat), m + 3 ≤ fuel →
      evaluate_annotation fuel (.generic (some .union) [.cls "NoneType", a])
        g l c = .ok (.cls T, c) := by
  intro c fuel hf
  obtain ⟨f, rfl⟩ : ∃ f, fuel = f + 1 := ⟨fuel - 1, by omega⟩
  obtain ⟨f1, rfl⟩ : ∃ f1, f = f1 + 1 := ⟨f - 1, by omega⟩
  have hNT : evaluate_annotation f1 (.cls "NoneType") g l c =
      .ok (.cls "NoneType", c) := eval_simple _ _ _ _ _ rfl (by omega)
  have ha : evaluate_annotation f1 a g l c = .ok (.cls T, c) := IH c f1 (by omega)
  have htail : evalListAnn f1 [a] g l c = .ok ([.cls T], c) := by
    obtain ⟨f2, rfl⟩ : ∃ f2, f1 = f2 + 1 := ⟨f1 - 1, by omega⟩
    have ha2 : evaluate_annotation f2 a g l c = .ok (.cls T, c) :=
      IH c f2 (by omega)
    have hnil : evalListAnn f2 ([] : List Ann) g l c = .ok ([], c) :=
      evalList_simple _ g l c f2 (by simp) (by simp; omega)
    simp [evalListAnn, ha2, hnil]
  have hlist : evalListAnn (f1 + 1) [.cls "NoneType", a] g l c =
      .ok ([.cls "NoneType", .cls T], c) := by
    simp [evalListAnn, hNT, htail]
  simp [ evaluate_annotation, hlist, isNoneCls, hT]

theorem union_ev_S {T : String} {a : Ann} {g l : NS} {m : Nat} (hm : 1 ≤ m)
    (hT : (T == "NoneType") = false)
    (IH : ∀ (c : Cache) (fuel : Nat), m ≤ fuel →
      evaluate_annotation fuel a g l c = .ok (.cls T, c)) :
    ∀ (c : Cache) (fuel : Nat), m + 2 ≤ fuel →
      evaluate_annotation fuel (.generic (some .union) [a]) g l c =
        .ok (.cls T, c) := by
  intro c fuel hf
  obtain ⟨f, rfl⟩ : ∃ f, fuel = f + 1 := ⟨fuel - 1, by omega⟩
  obtain ⟨f1, rfl⟩ : ∃ f1, f = f1 + 1 := ⟨f - 1, by omega⟩
  have ha : evaluate_annotation f1 a g l c = .ok (.cls T, c) := IH c f1 (by omega)
  have hnil : evalListAnn f1 ([] : List Ann) g l c = .ok ([], c) :=
    evalList_simple _ g l c f1 (by simp) (by simp; omega)
  have hlist : evalListAnn (f1 + 1) [a] g l c = .ok ([.cls T], c) := by
    simp [evalListAnn, ha, hnil]
  simp [ evaluate_annotation, hlist, isNoneCls, hT]

/-- The container shapes of the claim: a plain class wrapped in finitely many
layers of Optional (Union with the null alternative on either side), Union of
a single alternative, or the PEP-604 union object with the null alternative;
the index counts the layers. -/
inductive Wraps (T : String) : Nat → Ann → Prop where
  | base : Wraps T 0 (.cls T)
  | optR {n : Nat} {a : Ann} : Wraps T n a →
      Wraps T (n + 1) (.generic (some .union) [a, .cls "NoneType"])
  | optL {n : Nat} {a : Ann} : Wraps T n a →
      Wraps T (n + 1) (.generic (some .union) [.cls "NoneType", a])
  | single {n : Nat} {a : Ann} : Wraps T n a →
      Wraps T (n + 1) (.generic (some .union) [a])
  | pep604 {n : Nat} {a : Ann} : Wraps T n a →
      Wraps T (n + 1) (.unionType [a, .cls "NoneType"])

theorem wraps_eval {T : String} (hT : T ≠ "NoneType") {n : Nat} {a : Ann}
    (hw : Wraps T n a) (g l : NS) :
    ∀ (c : Cache) (fuel : Nat), 4 * n + 1 ≤ fuel →
      evaluate_annotation fuel a g l c = .ok (.cls T, c) := by
  have hT' : (T == "NoneType") = false := beq_eq_false_iff_ne.mpr hT
  induction hw with
  | base =>
    intro c fuel hf
    exact eval_simple _ _ _ _ _ rfl (by omega)
  | optR hsub ih =>
    intro c fuel hf
    exact union_ev_R (by omega) hT' ih c fuel (by omega)
  | optL hsub ih =>
    intro c fuel hf
    exact union_ev_L (by omega) hT' ih c fuel (by omega)
  | single hsub ih =>
    intro c fuel hf
    exact union_ev_S (by omega) hT' ih c fuel (by omega)
  | pep604 hsub ih =>
    intro c fuel hf
    obtain ⟨f, rfl⟩ : ∃ f, fuel = f + 1 := ⟨fuel - 1, by omega⟩
    have hstep : evaluate_annotation f
        (.generic (some .union) [_, .cls "NoneType"]) g l c = .ok (.cls T, c) :=
      union_ev_R (by omega) hT' ih c f (by omega)
    simp [ evaluate_annotation, PY_310, hstep]

/-- C3: annotations built from the generic containers are unwrapped
recursively.  A named class is its own subclass (first conjunct); every
annotation wrapping a plain class T in Optional/Union layers — including the
PEP-604 union object — evaluates to the class T itself rather than the
container (second conjunct); the PEP-604 string form "T | None" on Python
3.10+ likewise evaluates to the class T (third conjunct); and a Literal
container whose arguments are all literal values evaluates with its argument
structure preserved (fourth conjunct — a Literal wraps values, not a plain
class, so no class unwrapping applies to it). -/
theorem c3_containers_unwrap_to_class :
    (∀ (T : String), issubclass (.cls T) (.cls T) = true) ∧
    (∀ (T : String) (n : Nat) (a : Ann), T ≠ "NoneType" → Wraps T n a →
      ∀ (g l : NS) (c : Cache) (fuel : Nat), 4 * n + 1 ≤ fuel →
        evaluate_annotation fuel a g l c = .ok (.cls T, c)) ∧
    (∀ (name : String) (g l : NS) (fuel : Nat),
      evalName g l (name ++ " | None") = none →
      evalName g l name = some (.cls name) →
      name ≠ "NoneType" →
      8 ≤ fuel →
      ( evaluate_annotation fuel (.str_ (name ++ " | None")) g l []).map
          Prod.fst =
        .ok (.cls name)) ∧
    (∀ (args : List Ann) (g l : NS) (c : Cache) (fuel : Nat),
      args.all isLitVal = true → 0 < fuel →
      evaluate_annotation fuel (.generic (some .literal) args) g l c =
        .ok (.generic (some .literal) args, c)) := by
  refine ⟨fun T => by simp [issubclass], ?_, ?_, ?_⟩
  · intro T n a hT hw g l c fuel hf
    exact wraps_eval hT hw g l c fuel hf
  · intro name g l fuel hnone hbind hne hf
    have hT' : (name == "NoneType") = false := beq_eq_false_iff_ne.mpr hne
    obtain ⟨f, rfl⟩ : ∃ f, fuel = f + 1 := ⟨fuel - 1, by omega⟩
    have hstr : evalStr g l (name ++ " | None") =
        some (.unionType [.cls name, .cls "NoneType"]) := by
      simp [evalStr, hnone, strip_append name, hbind]
    have hu : evaluate_annotation f
        (.unionType [.cls name, .cls "NoneType"]) g l
        [(name ++ " | None", .unionType [.cls name, .cls "NoneType"])] =
        .ok (.cls name,
          [(name ++ " | None", .unionType [.cls name, .cls "NoneType"])]) := by
      obtain ⟨f1, rfl⟩ : ∃ f1, f = f1 + 1 := ⟨f - 1, by omega⟩
      have hstep : evaluate_annotation f1
          (.generic (some .union) [.cls name, .cls "NoneType"]) g l
          [(name ++ " | None", .unionType [.cls name, .cls "NoneType"])] =
          .ok (.cls name,
            [(name ++ " | None", .unionType [.cls name, .cls "NoneType"])]) :=
        union_ev_R (m := 1) (by omega) hT'
          (fun c fuel hf => eval_simple _ _ _ _ _ rfl (by omega))
          _ f1 (by omega)
      simp [ evaluate_annotation, PY_310, hstep]
    show ( evaluate_annotation (f + 1) (.str_ (name ++ " | None")) g l []).map
        Prod.fst = .ok (.cls name)
    simp [ evaluate_annotation, lookupA, hstr, hu, Except.map]
  · intro args g l c fuel hall hfuel
    obtain ⟨f, rfl⟩ : ∃ f, fuel = f + 1 := ⟨fuel - 1, by omega⟩
    simp [ evaluate_annotation, hall]

theorem c3_witness :
    evaluate_annotation 10
      (.generic (some .union) [.cls "MockObject", .cls "NoneType"]) [] [] [] =
      .ok (.cls "MockObject", []) :=
  c3_containers_unwrap_to_class.2.1 "MockObject" 1 _ (by decide)
    (Wraps.optR Wraps.base) [] [] [] 10 (by omega)

/- ===================== C4 ===================== -/

/-- A cache is consistent with the namespaces when every entry holds exactly
the value evaluating its key against the namespaces would produce (the
invariant relating the forward-reference cache to the namespaces). -/
def cacheConsistent (g l : NS) (c : Cache) : Prop :=
  ∀ s v, lookupA c s = some v → evalStr g l s = some v

theorem cacheConsistent_nil (g l : NS) : cacheConsistent g l [] := by
  intro s v h
  simp [lookupA] at h

theorem cacheConsistent_cons {g l : NS} {c : Cache} {s : String} {v : Ann}
    (hc : cacheConsistent g l c) (hv : evalStr g l s = some v) :
    cacheConsistent g l ((s, v) :: c) := by
  intro s' v' h
  by_cases hs : s = s'
  · subst hs
    simp [lookupA] at h
    subst h
    exact hv
  · simp [lookupA, hs] at h
    exact hc s' v' h

theorem lookupA_append {α : Type} (xs ys : List (String × α)) (s : String) :
    lookupA (xs ++ ys) s =
      match lookupA xs s with
      | some v => some v
      | none => lookupA ys s := by
  induction xs with
  | nil => rfl
  | cons kv rest ih =>
    obtain ⟨k, v⟩ := kv
    by_cases h : k = s
    · simp [lookupA, h]
    · simp [lookupA, h, ih]

theorem evalName_eq_append (g l : NS) (s : String) :
    evalName g l s = lookupA (l ++ g) s := by
  rw [lookupA_append]
  unfold evalName
  cases lookupA l s <;> rfl

/-- The merged namespaces themselves form a consistent cache (the cache the
test pre-populates with globals() | locals()). -/
theorem cacheConsistent_merged (g l : NS) : cacheConsistent g l (l ++ g) := by
  intro s v h
  rw [← evalName_eq_append] at h
  simp [evalStr, h]

theorem map_fst_err {ε α β : Type} {e : ε} {x : Except ε (α × β)}
    (h : (Except.error e : Except ε (α × β)).map Prod.fst = x.map Prod.fst) :
    x = .error e := by
  cases x with
  | error e2 =>
    simp only [Except.map, Except.error.injEq] at h
    rw [h]
  | ok p => simp [Except.map] at h

theorem map_fst_ok {ε α β : Type} {r : α} {c : β} {x : Except ε (α × β)}
    (h : (Except.ok (r, c) : Except ε (α × β)).map Prod.fst = x.map Prod.fst) :
    ∃ c2, x = .ok (r, c2) := by
  cases x with
  | error e => simp [Except.map] at h
  | ok p =>
    obtain ⟨r2, c2⟩ := p
    simp only [Except.map, Except.ok.injEq] at h
    exact ⟨c2, by rw [h]⟩

theorem cache_invariance : ∀ (fuel : Nat),
    (∀ (a : Ann) (g l : NS) (c₁ c₂ : Cache),
      cacheConsistent g l c₁ → cacheConsistent g l c₂ →
      (( evaluate_annotation fuel a g l c₁).map Prod.fst =
        ( evaluate_annotation fuel a g l c₂).map Prod.fst ∧
      (∀ r c', evaluate_annotation fuel a g l c₁ = .ok (r, c') →
        cacheConsistent g l c'))) ∧
    (∀ (as : List Ann) (g l : NS) (c₁ c₂ : Cache),
      cacheConsistent g l c₁ → cacheConsistent g l c₂ →
      ((evalListAnn fuel as g l c₁).map Prod.fst =
        (evalListAnn fuel as g l c₂).map Prod.fst ∧
      (∀ rs c', evalListAnn fuel as g l c₁ = .ok (rs, c') →
        cacheConsistent g l c'))) := by
  intro fuel
  induction fuel with
  | zero =>
    constructor
    · intro a g l c₁ c₂ h1 h2
      exact ⟨rfl, fun r c' h => Except.noConfusion h⟩
    · intro as g l c₁ c₂ h1 h2
      exact ⟨rfl, fun rs c' h => Except.noConfusion h⟩
  | succ f ih =>
    obtain ⟨ihE, ihL⟩ := ih
    constructor
    · intro a g l c₁ c₂ h1 h2
      cases a with
      | pyNone =>
        refine ⟨rfl, ?_⟩
        intro r c' h
        simp only [ evaluate_annotation, Except.ok.injEq, Prod.mk.injEq] at h
        obtain ⟨_, hc⟩ := h
        rw [← hc]
        exact h1
      | lit s =>
        refine ⟨rfl, ?_⟩
        intro r c' h
        simp only [ evaluate_annotation, Except.ok.injEq, Prod.mk.injEq] at h
        obtain ⟨_, hc⟩ := h
        rw [← hc]
        exact h1
      | cls n =>
        refine ⟨rfl, ?_⟩
        intro r c' h
        simp only [ evaluate_annotation, Except.ok.injEq, Prod.mk.injEq] at h
        obtain ⟨_, hc⟩ := h
        rw [← hc]
        exact h1
      | unionType args =>
        have hgoal := ihE (.generic (some .union) args) g l c₁ c₂ h1 h2
        constructor
        · show ( evaluate_annotation f (.generic (some .union) args) g l c₁).map
              Prod.fst =
            ( evaluate_annotation f (.generic (some .union) args) g l c₂).map
              Prod.fst
          exact hgoal.1
        · intro r c' h
          exact hgoal.2 r c' h
      | str_ s =>
        cases hl1 : lookupA c₁ s with
        | some v₁ =>
          have hv₁ : evalStr g l s = some v₁ := h1 s v₁ hl1
          cases hl2 : lookupA c₂ s with
          | some v₂ =>
            have hv₂ : evalStr g l s = some v₂ := h2 s v₂ hl2
            rw [hv₁] at hv₂
            injection hv₂ with hvv
            subst hvv
            constructor
            · simp only [ evaluate_annotation, hl1, hl2]
              exact (ihE v₁ g l c₁ c₂ h1 h2).1
            · intro r c' h
              simp only [ evaluate_annotation, hl1] at h
              exact (ihE v₁ g l c₁ c₁ h1 h1).2 r c' h
          | none =>
            constructor
            · simp only [ evaluate_annotation, hl1, hl2, hv₁]
              exact (ihE v₁ g l c₁ ((s, v₁) :: c₂) h1
                (cacheConsistent_cons h2 hv₁)).1
            · intro r c' h
              simp only [ evaluate_annotation, hl1] at h
              exact (ihE v₁ g l c₁ c₁ h1 h1).2 r c' h
        | none =>
          cases hl2 : lookupA c₂ s with
          | some v₂ =>
            have hv₂ : evalStr g l s = some v₂ := h2 s v₂ hl2
            constructor
            · simp only [ evaluate_annotation, hl1, hl2, hv₂]
              exact (ihE v₂ g l ((s, v₂) :: c₁) c₂
                (cacheConsistent_cons h1 hv₂) h2).1
            · intro r c' h
              simp only [ evaluate_annotation, hl1, hv₂] at h
              exact (ihE v₂ g l ((s, v₂) :: c₁) ((s, v₂) :: c₁)
                (cacheConsistent_cons h1 hv₂) (cacheConsistent_cons h1 hv₂)).2
                r c' h
          | none =>
            cases hstr : evalStr g l s with
            | some v =>
              constructor
              · simp only [ evaluate_annotation, hl1, hl2, hstr]
                exact (ihE v g l ((s, v) :: c₁) ((s, v) :: c₂)
                  (cacheConsistent_cons h1 hstr)
                  (cacheConsistent_cons h2 hstr)).1
              · intro r c' h
                simp only [ evaluate_annotation, hl1, hstr] at h
                exact (ihE v g l ((s, v) :: c₁) ((s, v) :: c₁)
                  (cacheConsistent_cons h1 hstr)
                  (cacheConsistent_cons h1 hstr)).2 r c' h
            | none =>
              constructor
              · simp only [ evaluate_annotation, hl1, hl2, hstr]
              · intro r c' h
                simp only [ evaluate_annotation, hl1, hstr] at h
                exact Except.noConfusion h
      | generic o args =>
        cases o with
        | none =>
          refine ⟨rfl, ?_⟩
          intro r c' h
          simp only [ evaluate_annotation, Except.ok.injEq, Prod.mk.injEq] at h
          obtain ⟨_, hc⟩ := h
          rw [← hc]
          exact h1
        | some o =>
          cases o with
          | literal =>
            cases hall : args.all isLitVal with
            | true =>
              constructor
              · simp [ evaluate_annotation, hall, Except.map]
              · intro r c' h
                simp only [ evaluate_annotation, hall, if_true,
                  Except.ok.injEq, Prod.mk.injEq] at h
                obtain ⟨_, hc⟩ := h
                rw [← hc]
                exact h1
            | false =>
              constructor
              · simp [ evaluate_annotation, hall, Except.map]
              · intro r c' h
                simp only [ evaluate_annotation, hall, Bool.false_eq_true,
                  if_false] at h
                exact Except.noConfusion h
          | union =>
            have hL := ihL args g l c₁ c₂ h1 h2
            cases he1 : evalListAnn f args g l c₁ with
            | error e =>
              have he2 : evalListAnn f args g l c₂ = .error e := by
                have hm := hL.1
                rw [he1] at hm
                exact map_fst_err hm
              constructor
              · simp only [ evaluate_annotation, he1, he2]
              · intro r c' h
                simp only [ evaluate_annotation, he1] at h
                exact Except.noConfusion h
            | ok p₁ =>
              obtain ⟨ev, c₁'⟩ := p₁
              have hmap := hL.1
              rw [he1] at hmap
              obtain ⟨c₂', he2⟩ := map_fst_ok hmap
              have hc₁' : cacheConsistent g l c₁' := hL.2 ev c₁' he1
              constructor
              · simp only [ evaluate_annotation, he1, he2]
                by_cases hcond : (ev.any isNoneCls &&
                    decide (2 ≤ (ev.filter (fun a => !(isNoneCls a))).length))
                    = true
                · simp only [hcond, if_true]
                · simp only [hcond, Bool.false_eq_true, if_false]
                  cases hnn : ev.filter (fun a => !(isNoneCls a)) with
                  | nil => simp [Except.map]
                  | cons t rest =>
                    cases rest with
                    | nil => simp [Except.map]
                    | cons t2 r2 => simp [Except.map]
              · intro r c' h
                simp only [ evaluate_annotation, he1] at h
                by_cases hcond : (ev.any isNoneCls &&
                    decide (2 ≤ (ev.filter (fun a => !(isNoneCls a))).length))
                    = true
                · simp only [hcond, if_true] at h
                  exact Except.noConfusion h
                · simp only [hcond, Bool.false_eq_true, if_false] at h
                  cases hnn : ev.filter (fun a => !(isNoneCls a)) with
                  | nil =>
                    rw [hnn] at h
                    simp only [Except.ok.injEq, Prod.mk.injEq] at h
                    obtain ⟨_, hc⟩ := h
                    rw [← hc]
                    exact hc₁'
                  | cons t rest =>
                    cases rest with
                    | nil =>
                      rw [hnn] at h
                      simp only [Except.ok.injEq, Prod.mk.injEq] at h
                      obtain ⟨_, hc⟩ := h
                      rw [← hc]
                      exact hc₁'
                    | cons t2 r2 =>
                      rw [hnn] at h
                      simp only [Except.ok.injEq, Prod.mk.injEq] at h
                      obtain ⟨_, hc⟩ := h
                      rw [← hc]
                      exact hc₁'
    · intro as g l c₁ c₂ h1 h2
      cases as with
      | nil =>
        refine ⟨rfl, ?_⟩
        intro rs c' h
        simp only [evalListAnn, Except.ok.injEq, Prod.mk.injEq] at h
        obtain ⟨_, hc⟩ := h
        rw [← hc]
        exact h1
      | cons a rest =>
        have hE := ihE a g l c₁ c₂ h1 h2
        cases he1 : evaluate_annotation f a g l c₁ with
        | error e =>
          have he2 : evaluate_annotation f a g l c₂ = .error e := by
            have hm := hE.1
            rw [he1] at hm
            exact map_fst_err hm
          constructor
          · simp only [evalListAnn, he1, he2]
          · intro rs c' h
            simp only [evalListAnn, he1] at h
            exact Except.noConfusion h
        | ok p₁ =>
          obtain ⟨ea, c₁'⟩ := p₁
          have hmap := hE.1
          rw [he1] at hmap
          obtain ⟨c₂', he2⟩ := map_fst_ok hmap
          have hc₁' : cacheConsistent g l c₁' := hE.2 ea c₁' he1
          have hc₂' : cacheConsistent g l c₂' :=
            (ihE a g l c₂ c₂ h2 h2).2 ea c₂' he2
          have hR := ihL rest g l c₁' c₂' hc₁' hc₂'
          cases hr1 : evalListAnn f rest g l c₁' with
          | error e =>
            have hr2 : evalListAnn f rest g l c₂' = .error e := by
              have hm := hR.1
              rw [hr1] at hm
              exact map_fst_err hm
            constructor
            · simp only [evalListAnn, he1, he2, hr1, hr2]
            · intro rs c' h
              simp only [evalListAnn, he1, hr1] at h
              exact Except.noConfusion h
          | ok q₁ =>
            obtain ⟨eas, c₁''⟩ := q₁
            have hmap2 := hR.1
            rw [hr1] at hmap2
            obtain ⟨c₂'', hr2⟩ := map_fst_ok hmap2
            constructor
            · simp only [evalListAnn, he1, he2, hr1, hr2, Except.map]
            · intro rs c' h
              simp only [evalListAnn, he1, hr1, Except.ok.injEq,
                Prod.mk.injEq] at h
              obtain ⟨_, hc⟩ := h
              rw [← hc]
              exact hR.2 eas c₁'' hr1

/-- C4: the value returned by evaluate_annotation does not depend on the
initial contents of the cache: for every annotation, globals, locals, and
fuel, running with an empty cache and with a cache pre-populated with the
merged globals and locals (locals shadowing globals, as in the dict merge the
test builds) yields the same resolved result — caching only avoids repeated
evaluation, it never changes the answer. -/
theorem c4_cache_does_not_change_result (a : Ann) (g l : NS) (fuel : Nat) :
    ( evaluate_annotation fuel a g l []).map Prod.fst =
      ( evaluate_annotation fuel a g l (l ++ g)).map Prod.fst :=
  ((cache_invariance fuel).1 a g l [] (l ++ g) (cacheConsistent_nil g l)
    (cacheConsistent_merged g l)).1
